import Mathlib

/-!
Verification of the disk-provisioning script interpreter (`disk.py`):
the script parser, the partition-path namer, the mkfs/format/mount command
builders, the sequential command executor and the minimum-size calculator.

Python strings are modelled as `String` / `List Char`; the splitting
primitives of the Python standard library (`str.split`, `str.split("#", 1)`)
are re-implemented structurally below so that all definitions evaluate.
Machine integers do not occur: all byte counts are unbounded `Nat`s, as in
Python.
-/

namespace Disk

/-- Python `s.split(sep)` for a one-character separator: split at every
occurrence of `sep`, keeping empty fragments (`"".split(c) == [""]`). -/
def splitOnChar (sep : Char) : List Char → List (List Char)
  | [] => [[]]
  | c :: rest =>
    let r := splitOnChar sep rest
    if c = sep then [] :: r
    else
      match r with
      | [] => [[c]]
      | g :: gs => (c :: g) :: gs

/-- Accumulator pass of Python `s.split()` (no argument): tokens are maximal
runs of non-whitespace characters; empty tokens never occur. `acc` holds the
current token reversed. -/
def wsTokensAux : List Char → List Char → List (List Char)
  | [], acc => if acc = [] then [] else [acc.reverse]
  | c :: rest, acc =>
    if c.isWhitespace then
      if acc = [] then wsTokensAux rest []
      else acc.reverse :: wsTokensAux rest []
    else wsTokensAux rest (c :: acc)

/-- Python `s.split()` with no arguments. -/
def wsTokens (cs : List Char) : List (List Char) := wsTokensAux cs []

/-- Python `line.split("#", 1)` padded to two fields, as used by the parser:
the command part before the first `#` and the metadata part after it
(empty when the line has no `#`). -/
def splitHash (cs : List Char) : List Char × List Char :=
  (cs.takeWhile (· ≠ '#'), (cs.dropWhile (· ≠ '#')).drop 1)

/-- Command-part word list of one script line (`left` in `_parse_script`). -/
def lineTokens (cs : List Char) : List String :=
  (wsTokens (splitHash cs).1).map String.mk

/-- Word character of the metadata regex `(\w+)=([^\s]+)` (ASCII model of
Python `\w`). -/
def isWordChar (c : Char) : Bool := c.isAlphanum || c = '_'

/-- Scanner for `re.findall(r"(\w+)=([^\s]+)", right)`: at each position, a
match needs a maximal nonempty word-character run, an immediately following
`=`, and a maximal nonempty run of non-whitespace characters as the value;
scanning resumes after the value, or one character further on failure.
`fuel` only forces termination; `fuel = cs.length` is always enough because
every step consumes at least one character. -/
def scanKV : Nat → List Char → List (String × String)
  | 0, _ => []
  | _ + 1, [] => []
  | fuel + 1, c :: rest =>
    if isWordChar c then
      let w := (c :: rest).takeWhile isWordChar
      let after := (c :: rest).dropWhile isWordChar
      match after with
      | '=' :: after2 =>
        let v := after2.takeWhile (fun ch => !ch.isWhitespace)
        let after3 := after2.dropWhile (fun ch => !ch.isWhitespace)
        if v = [] then scanKV fuel rest
        else (String.mk w, String.mk v) :: scanKV fuel after3
      | _ => scanKV fuel rest
    else scanKV fuel rest

/-- All `key=value` matches of the metadata part, in order. -/
def findKV (cs : List Char) : List (String × String) := scanKV cs.length cs

/-- Python `dict(pairs).get(k, "")`: the value of the last pair whose key is
`k`, or `""` when none matches. -/
def lookupLast (ps : List (String × String)) (k : String) : String :=
  ps.foldl (fun acc p => if p.1 = k then p.2 else acc) ""

/-- Multiplier of a (lower-cased) byte-magnitude suffix, as in the byte-size
parser used by `_parse_script` (`dask.utils.parse_bytes`): one-letter and
two-letter decimal suffixes are base 1000, `i`-suffixes are base 1024. -/
def byteSuffix : String → Option Nat
  | "" => some 1
  | "b" => some 1
  | "k" => some 1000
  | "kb" => some 1000
  | "m" => some (1000 * 1000)
  | "mb" => some (1000 * 1000)
  | "g" => some (1000 * 1000 * 1000)
  | "gb" => some (1000 * 1000 * 1000)
  | "t" => some (1000 * 1000 * 1000 * 1000)
  | "tb" => some (1000 * 1000 * 1000 * 1000)
  | "p" => some (1000 * 1000 * 1000 * 1000 * 1000)
  | "pb" => some (1000 * 1000 * 1000 * 1000 * 1000)
  | "ki" => some 1024
  | "kib" => some 1024
  | "mi" => some (1024 * 1024)
  | "mib" => some (1024 * 1024)
  | "gi" => some (1024 * 1024 * 1024)
  | "gib" => some (1024 * 1024 * 1024)
  | "ti" => some (1024 * 1024 * 1024 * 1024)
  | "tib" => some (1024 * 1024 * 1024 * 1024)
  | "pi" => some (1024 * 1024 * 1024 * 1024 * 1024)
  | "pib" => some (1024 * 1024 * 1024 * 1024 * 1024)
  | _ => none

/-- Decimal value of a digit run. -/
def digitsToNat (cs : List Char) : Nat :=
  cs.foldl (fun n c => n * 10 + (c.toNat - 48)) 0

/-- The byte-size parser applied to size tokens (`dask.utils.parse_bytes`,
an external dependency of `disk.py`): spaces are removed, a digitless token
gets `1` prepended, the maximal alphabetic suffix selects the multiplier and
the rest must be a number. The model restricts the numeric part to decimal
digit runs (fractional or signed magnitudes are outside the model; no size
token of the claims uses them); failure is `none` (Python: `ValueError`). -/
def parseBytesCore (cs : List Char) : Option Nat :=
  let cs := cs.filter (· ≠ ' ')
  let cs := if cs.any (·.isDigit) then cs else '1' :: cs
  let suffix := (cs.reverse.takeWhile (·.isAlpha)).reverse
  let pre := cs.take (cs.length - suffix.length)
  if pre ≠ [] ∧ pre.all (·.isDigit) then
    match byteSuffix (String.mk (suffix.map (·.toLower))) with
    | some mult => some (digitsToNat pre * mult)
    | none => none
  else none

/-- Byte-size parser on `String` tokens. -/
def parseBytes (s : String) : Option Nat := parseBytesCore s.toList

/-- End-field parser of `_parse_script` line 71: the literal `100%` is the
sentinel `0`, anything else goes through the byte-size parser. -/
def parseEndToken (t : String) : Option Nat :=
  if t = "100%" then some 0 else parseBytes t

/-- The `_Mkfs` dataclass of `disk.py`: parameters for creating one
filesystem, derived from one `mkpart` line. -/
structure Mkfs where
  npart : Nat
  fs : String
  label : String
  reserved : String
  mount : String
  begin : Nat
  end_ : Nat
deriving Repr, DecidableEq

/-- Guard of `_parse_script` line 61: the word list contains `mkpart` and
also `primary` or `logical`, at any positions. -/
def isMkpartLine (left : List String) : Bool :=
  left.contains "mkpart" && (left.contains "primary" || left.contains "logical")

/-- Loop body of `_parse_script` lines 57-74, over the nonempty lines, with
the running partition counter `npart`: every line's word list joins the
parted list; a qualifying line must have at least 5 words (Python
`assert`), its words 2, 3, 4 give filesystem, begin and end, and its
metadata part gives `label`, `reserved` and `mount`. Failures (assert,
unparseable size) are `Except.error` (Python: uncaught exception). -/
def parseLines : List (List Char) → Nat → Except String (List (List String) × List Mkfs)
  | [], _ => .ok ([], [])
  | line :: rest, npart =>
    let left := lineTokens line
    if isMkpartLine left then
      if left.length < 5 then
        .error ("Too short mkpart command: " ++ String.intercalate " " left)
      else
        match parseBytes (left.getD 3 "") with
        | none => .error ("Could not interpret " ++ left.getD 3 "" ++ " as bytes")
        | some b =>
          match parseEndToken (left.getD 4 "") with
          | none => .error ("Could not interpret " ++ left.getD 4 "" ++ " as bytes")
          | some e =>
            let params := findKV (splitHash line).2
            match parseLines rest (npart + 1) with
            | .error msg => .error msg
            | .ok pf =>
              .ok (left :: pf.1,
                   { npart := npart
                     fs := left.getD 2 ""
                     label := lookupLast params "label"
                     reserved := lookupLast params "reserved"
                     mount := lookupLast params "mount"
                     begin := b
                     end_ := e } :: pf.2)
    else
      match parseLines rest npart with
      | .error msg => .error msg
      | .ok pf => .ok (left :: pf.1, pf.2)

/-- Python `filter(None, script.split("\n"))`: the lines of the script with
the empty ones removed (whitespace-only lines stay). -/
def scriptLines (script : String) : List (List Char) :=
  (splitOnChar '\n' script.toList).filter (· ≠ [])

/-- `_parse_script`: the parted word lists and the filesystem parameters of
a script, or the first parse failure. -/
def parseScript (script : String) : Except String (List (List String) × List Mkfs) :=
  parseLines (scriptLines script) 1

/-- `_make_partition`: partition path from device path and partition
number; device classes named `mmcblk*` or `loop*` use a `p` infix. -/
def makePartition (path : String) (npart : Nat) : String :=
  let device := String.mk ((splitOnChar '/' path.toList).getLastD [])
  if device.startsWith "mmcblk" || device.startsWith "loop" then
    path ++ "p" ++ toString npart
  else
    path ++ toString npart

/-- Environment for `_run_commands`: `which` resolves a program name on the
executable search path (`shutil.which`, `none` when not found) and `run`
gives the exit status of executing a resolved argument vector
(`subprocess.run`; any nonzero status raises in Python). -/
structure ExecEnv where
  which : String → Option String
  run : List String → Nat

/-- Terminal state of one command sequence: all commands succeeded, a
program name failed to resolve (uncaught `FileNotFoundError`), a command
exited nonzero (`SystemExit(1)`), or a `None` entry reached string
formatting (uncaught `TypeError`, possible for command lists built with
build-time `shutil.which`). Every non-`ok` state ends the Python process
with a nonzero exit status. -/
inductive RunResult where
  | ok
  | notFound (prog : String)
  | cmdFailed
  | typeErr
deriving Repr, DecidableEq

/-- `_run_commands` lines 100-109: commands run strictly in order; each
iteration first resolves the program name (abort when unresolved), then
executes and aborts on nonzero exit. The first component is the list of
argument vectors actually executed, in order. -/
def runCommands (env : ExecEnv) : List (List String) → List (List String) × RunResult
  | [] => ([], .ok)
  | cmd :: rest =>
    match env.which (cmd.headD "") with
    | none => ([], .notFound (cmd.headD ""))
    | some exe =>
      let argv := exe :: cmd.tail
      if env.run argv = 0 then
        let r := runCommands env rest
        (argv :: r.1, r.2)
      else ([argv], .cmdFailed)

/-- Lifts a command list whose program slot came from build-time
`shutil.which` (so may be `None`) to a plain argument list; `none` when any
entry is `None`, where Python's `" ".join(cmd)` raises `TypeError`. -/
def seqCmd : List (Option String) → Option (List String)
  | [] => some []
  | none :: _ => none
  | some s :: rest => (seqCmd rest).map (s :: ·)

/-- `_run_commands` applied to a command list built with build-time
`shutil.which` entries (as `_format_disk`, `_mkfs_disk` and `_mount_disk`
produce): a command containing `None` aborts at the echo step before
executing; otherwise each step behaves as in `runCommands`. -/
def runCommandsOpt (env : ExecEnv) : List (List (Option String)) → List (List String) × RunResult
  | [] => ([], .ok)
  | cmd :: rest =>
    match seqCmd cmd with
    | none => ([], .typeErr)
    | some c =>
      match env.which (c.headD "") with
      | none => ([], .notFound (c.headD ""))
      | some exe =>
        let argv := exe :: c.tail
        if env.run argv = 0 then
          let r := runCommandsOpt env rest
          (argv :: r.1, r.2)
        else ([argv], .cmdFailed)

/-- The `partprobe` / `partx -vu` re-enumeration pair appended by
`_format_disk` and `_mkfs_disk`. -/
def probeCmds (w : String → Option String) (device : String) : List (List (Option String)) :=
  [[w "partprobe", some device], [w "partx", some "-vu", some device]]

/-- One iteration of the `_mkfs_disk` loop: the filesystem-creation command
for one spec (`fat32` → `mkfs.vfat` with optional `-n label`; `ext4` →
`mkfs.ext4` with optional `-L label` and `-m reserved`), or the
`RuntimeError` for an unsupported kind. -/
def mkfsCmd (w : String → Option String) (device : String) (m : Mkfs) :
    Except String (List (Option String)) :=
  if m.fs = "fat32" then
    .ok ([w "mkfs.vfat"]
      ++ (if m.label ≠ "" then [some "-n", some m.label] else [])
      ++ [some (makePartition device m.npart)])
  else if m.fs = "ext4" then
    .ok ([w "mkfs.ext4"]
      ++ (if m.label ≠ "" then [some "-L", some m.label] else [])
      ++ (if m.reserved ≠ "" then [some "-m", some m.reserved] else [])
      ++ [some (makePartition device m.npart)])
  else .error ("Unsupported filesystem: " ++ m.fs)

/-- The `_mkfs_disk` loop over all specs in order; the first unsupported
kind aborts the whole build. -/
def mkfsCmdList (w : String → Option String) (device : String) :
    List Mkfs → Except String (List (List (Option String)))
  | [] => .ok []
  | m :: rest =>
    match mkfsCmd w device m with
    | .error e => .error e
    | .ok c =>
      match mkfsCmdList w device rest with
      | .error e => .error e
      | .ok cs => .ok (c :: cs)

/-- Command-list construction of `_mkfs_disk` lines 133-152: parse, build
one mkfs command per spec, append the re-enumeration pair. -/
def mkfsDiskCmds (w : String → Option String) (device script : String) :
    Except String (List (List (Option String))) :=
  match parseScript script with
  | .error e => .error e
  | .ok pf =>
    match mkfsCmdList w device pf.2 with
    | .error e => .error e
    | .ok cmds => .ok (cmds ++ probeCmds w device)

/-- `_mkfs_disk` end to end: the argument vectors actually executed and the
outcome; a build failure (parse error or unsupported filesystem) happens
before `_run_commands` is called, so nothing executes. -/
def mkfsDisk (env : ExecEnv) (device script : String) :
    List (List String) × Except String RunResult :=
  match mkfsDiskCmds env.which device script with
  | .error e => ([], .error e)
  | .ok cmds => ((runCommandsOpt env cmds).1, .ok (runCommandsOpt env cmds).2)

/-- Command-list construction of `_format_disk` lines 118-123: one parted
invocation per raw script line, then the re-enumeration pair. -/
def formatDiskCmds (w : String → Option String) (device script : String) :
    Except String (List (List (Option String))) :=
  match parseScript script with
  | .error e => .error e
  | .ok pf =>
    .ok (pf.1.map (fun cmd =>
          [w "parted", some device, some "-a", some "optimal", some "-s"] ++ cmd.map some)
        ++ probeCmds w device)

/-- Sort key of `_mount_disk` line 166: the number of nonempty `/`-separated
segments of the mount path. -/
def mountDepth (m : Mkfs) : Nat :=
  ((splitOnChar '/' m.mount.toList).filter (· ≠ [])).length

/-- Ordering pass of `_mount_disk` lines 166-168: a stable sort by mount
depth (Python `sorted` is stable mergesort), reversed in the unmount case. -/
def mountOrdered (fss : List Mkfs) (mount : Bool) : List Mkfs :=
  let s := fss.mergeSort (fun a b => mountDepth a ≤ mountDepth b)
  if mount then s else s.reverse

/-- Command-list construction of `_mount_disk` lines 169-177: over the
ordered specs with a nonempty mount path, mount mode makes the mount point
and mounts; unmount mode unmounts. -/
def mountDiskCmds (w : String → Option String) (device pfx : String) (mount : Bool)
    (fss : List Mkfs) : List (List (Option String)) :=
  ((mountOrdered fss mount).map (fun m =>
    if m.mount ≠ "" then
      if mount then
        [[w "mkdir", some "-p", some (pfx ++ "/" ++ m.mount)],
         [w "mount", some (makePartition device m.npart), some (pfx ++ "/" ++ m.mount)]]
      else
        [[w "umount", some (makePartition device m.npart)]]
    else [])).flatten

/-- Size computation of `_print_size` lines 190-197: walk the specs keeping
the last one's end (or begin when the end is the sentinel `0`), add 2 GiB,
align down to 4096 bytes. -/
def printSizeVal (fss : List Mkfs) : Nat :=
  let size := fss.foldl (fun _ m => if m.end_ > 0 then m.end_ else m.begin) 0
  let size := size + 2048 * 1024 * 1024
  size - size % 4096

/-- Align `n` down to a multiple of `a` (the spec's `align_down`). -/
def alignDown (n a : Nat) : Nat := n - n % a

/-- Size of the last spec as the claim about `_print_size` words it: end
offset of the last spec when nonzero, else its begin offset, `0` for the
empty list. -/
def specLastSize (fss : List Mkfs) : Nat :=
  match fss.getLast? with
  | none => 0
  | some m => if m.end_ ≠ 0 then m.end_ else m.begin

/-- Fixture: partition spec with a depth-1 mount path `a`, script order 1. -/
def specA : Mkfs :=
  { npart := 1, fs := "ext4", label := "", reserved := "", mount := "a", begin := 0, end_ := 0 }

/-- Fixture: partition spec with a depth-1 mount path `b`, script order 2. -/
def specB : Mkfs :=
  { npart := 2, fs := "ext4", label := "", reserved := "", mount := "b", begin := 0, end_ := 0 }

/-- Fixture: environment that resolves the program names `true` and `false`
only; executing `/bin/false` exits 1, everything else exits 0. -/
def envT : ExecEnv :=
  { which := fun s =>
      if s = "true" then some "/bin/true"
      else if s = "false" then some "/bin/false"
      else none
    run := fun argv => if argv.headD "" = "/bin/false" then 1 else 0 }

/-- A fold that ignores its accumulator returns the image of the last
element (or the start value on the empty list). -/
theorem foldl_ignore_acc (f : Mkfs → Nat) :
    ∀ (l : List Mkfs) (z : Nat),
      l.foldl (fun _ m => f m) z =
        match l.getLast? with
        | none => z
        | some m => f m
  | [], _ => rfl
  | a :: l, z => by
    rw [List.foldl_cons, foldl_ignore_acc f l (f a)]
    cases l with
    | nil => rfl
    | cons b l' =>
      cases hl : (b :: l').getLast? with
      | none => simp at hl
      | some m => simp [List.getLast?_cons_cons, hl]

/-- Characterization of the parser on one qualifying line: the word list is
recorded, and the spec takes filesystem, begin and end from words 2, 3, 4
and the metadata from the part after `#`. -/
theorem parseLines_singleton (line : List Char) (n b e : Nat)
    (hq : isMkpartLine (lineTokens line) = true)
    (hlen : ¬ (lineTokens line).length < 5)
    (hb : parseBytes ((lineTokens line).getD 3 "") = some b)
    (he : parseEndToken ((lineTokens line).getD 4 "") = some e) :
    parseLines [line] n =
      .ok ([lineTokens line],
        [{ npart := n
           fs := (lineTokens line).getD 2 ""
           label := lookupLast (findKV (splitHash line).2) "label"
           reserved := lookupLast (findKV (splitHash line).2) "reserved"
           mount := lookupLast (findKV (splitHash line).2) "mount"
           begin := b
           end_ := e }]) := by
  simp only [parseLines]
  rw [if_pos hq, if_neg hlen, hb, he]

/-- Shape of any successful parse: the raw list is exactly the token lists
of the nonempty lines, the spec count is the number of qualifying lines,
and the partition numbers are consecutive from the start counter. -/
theorem parseLines_shape (lines : List (List Char)) :
    ∀ (n : Nat) (raw : List (List String)) (fss : List Mkfs),
      parseLines lines n = .ok (raw, fss) →
      raw = lines.map lineTokens ∧
      fss.length = lines.countP (fun l => isMkpartLine (lineTokens l)) ∧
      fss.map Mkfs.npart = List.range' n fss.length := by
  induction lines with
  | nil =>
    intro n raw fss h
    simp only [parseLines, Except.ok.injEq, Prod.mk.injEq] at h
    obtain ⟨h1, h2⟩ := h
    subst h1; subst h2
    exact ⟨rfl, rfl, rfl⟩
  | cons line rest ih =>
    intro n raw fss h
    simp only [parseLines] at h
    by_cases hq : isMkpartLine (lineTokens line)
    · rw [if_pos hq] at h
      by_cases hlen : (lineTokens line).length < 5
      · rw [if_pos hlen] at h; exact absurd h (by simp)
      · rw [if_neg hlen] at h
        cases hb : parseBytes ((lineTokens line).getD 3 "") with
        | none => rw [hb] at h; exact absurd h (by simp)
        | some b =>
          rw [hb] at h
          cases he : parseEndToken ((lineTokens line).getD 4 "") with
          | none => rw [he] at h; exact absurd h (by simp)
          | some e =>
            rw [he] at h
            cases hrest : parseLines rest (n + 1) with
            | error msg => rw [hrest] at h; exact absurd h (by simp)
            | ok pf =>
              rw [hrest] at h
              obtain ⟨praw, pfss⟩ := pf
              simp only [Except.ok.injEq, Prod.mk.injEq] at h
              obtain ⟨h1, h2⟩ := h
              obtain ⟨ihr, ihc, ihn⟩ := ih (n + 1) praw pfss hrest
              subst h1; subst h2
              refine ⟨by rw [List.map_cons, ihr], ?_, ?_⟩
              · simp [List.countP_cons, hq, ihc]
              · simp [List.range'_succ, ihn]
    · rw [if_neg hq] at h
      cases hrest : parseLines rest n with
      | error msg => rw [hrest] at h; exact absurd h (by simp)
      | ok pf =>
        rw [hrest] at h
        obtain ⟨praw, pfss⟩ := pf
        simp only [Except.ok.injEq, Prod.mk.injEq] at h
        obtain ⟨h1, h2⟩ := h
        obtain ⟨ihr, ihc, ihn⟩ := ih n praw pfss hrest
        subst h1; subst h2
        refine ⟨by rw [List.map_cons, ihr], ?_, ihn⟩
        simp [List.countP_cons, hq, ihc]

/-- C4: for every list of partition specs (the empty one included), the
computed minimum size is the claimed `align_down(s + 2 GiB, 4096)` where
`s` comes from the last spec (its end offset when nonzero, else its begin
offset, `0` with no specs); in particular a last partition ending at 4 GiB
yields `align_down(4 GiB + 2 GiB, 4096)`. -/
theorem printSize_alignDown :
    (∀ fss : List Mkfs,
      printSizeVal fss = alignDown (specLastSize fss + 2 * 1024 * 1024 * 1024) 4096) ∧
    printSizeVal
        [{ npart := 1, fs := "ext4", label := "", reserved := "", mount := "",
           begin := 1048576, end_ := 4 * 1024 * 1024 * 1024 }] =
      alignDown (4 * 1024 * 1024 * 1024 + 2 * 1024 * 1024 * 1024) 4096 := by
  constructor
  · intro fss
    unfold printSizeVal alignDown specLastSize
    rw [foldl_ignore_acc]
    cases h : fss.getLast? with
    | none => simp
    | some m =>
      by_cases hz : m.end_ = 0 <;> simp [hz, Nat.pos_iff_ne_zero]
  · rfl

/-- Fixture: the spec parsed from `mkpart primary ext4 1MiB 100%`. -/
def specRoot100 : Mkfs :=
  { npart := 1, fs := "ext4", label := "", reserved := "", mount := "",
    begin := 1048576, end_ := 0 }

/-- Fixture: three-line provisioning script with a passthrough `mklabel`
line before two mkpart lines. -/
def script3 : String :=
  "mklabel msdos\nmkpart primary fat32 1MiB 256MiB # label=boot mount=boot\nmkpart primary ext4 256MiB 100% # label=root mount="

/-- Fixture: first spec parsed from `script3`. -/
def specBoot : Mkfs :=
  { npart := 1, fs := "fat32", label := "boot", reserved := "", mount := "boot",
    begin := 1048576, end_ := 268435456 }

/-- Fixture: second spec parsed from `script3`. -/
def specRootFull : Mkfs :=
  { npart := 2, fs := "ext4", label := "root", reserved := "", mount := "",
    begin := 268435456, end_ := 0 }

/-- C1 counterexample: the script `mkpart primary ext4 1MiB 0` has end
token `0`, not `100%`, yet its parsed spec has `end_offset = 0` — so a zero
end offset does not imply the `100%` sentinel. -/
theorem end_zero_without_sentinel :
    parseScript "mkpart primary ext4 1MiB 0" =
      .ok ([["mkpart", "primary", "ext4", "1MiB", "0"]],
        [{ npart := 1, fs := "ext4", label := "", reserved := "", mount := "",
           begin := 1048576, end_ := 0 }]) ∧
    ("0" : String) ≠ "100%" := ⟨rfl, by decide⟩

/-- C1 amended: for every parsed partition spec, the end token `100%`
yields `end_offset = 0`, and any other end token yields exactly the byte
count the size parser assigns to it — which may itself be `0`, so
`end_offset = 0` does not force the token `100%`. -/
theorem end_sentinel_or_parsed_bytes (line : List Char) (n : Nat)
    (raw : List (List String)) (m : Mkfs) (ms : List Mkfs)
    (h : parseLines [line] n = .ok (raw, m :: ms)) :
    ((lineTokens line).getD 4 "" = "100%" ∧ m.end_ = 0) ∨
    ((lineTokens line).getD 4 "" ≠ "100%" ∧
      parseBytes ((lineTokens line).getD 4 "") = some m.end_) := by
  by_cases hq : isMkpartLine (lineTokens line)
  · by_cases hlen : (lineTokens line).length < 5
    · simp only [parseLines] at h
      rw [if_pos hq, if_pos hlen] at h
      exact absurd h (by simp)
    · cases hb : parseBytes ((lineTokens line).getD 3 "") with
      | none =>
        simp only [parseLines] at h
        rw [if_pos hq, if_neg hlen, hb] at h
        exact absurd h (by simp)
      | some b =>
        cases he : parseEndToken ((lineTokens line).getD 4 "") with
        | none =>
          simp only [parseLines] at h
          rw [if_pos hq, if_neg hlen, hb, he] at h
          exact absurd h (by simp)
        | some e =>
          rw [parseLines_singleton line n b e hq hlen hb he] at h
          simp only [Except.ok.injEq, Prod.mk.injEq, List.cons.injEq] at h
          obtain ⟨-, hm, -⟩ := h
          have hend : m.end_ = e := by rw [← hm]
          unfold parseEndToken at he
          by_cases h100 : (lineTokens line).getD 4 "" = "100%"
          · rw [if_pos h100] at he
            exact Or.inl ⟨h100, by rw [hend, ← Option.some.inj he]⟩
          · rw [if_neg h100] at he
            exact Or.inr ⟨h100, by rw [hend]; exact he⟩
  · simp only [parseLines] at h
    rw [if_neg hq] at h
    simp [parseLines] at h

/-- C1 witness: the amended claim evaluated on `mkpart primary ext4 1MiB
100%`, whose spec is `specRoot100`. -/
theorem end_sentinel_or_parsed_bytes_witness :
    ((lineTokens ("mkpart primary ext4 1MiB 100%" : String).toList).getD 4 "" = "100%" ∧
      specRoot100.end_ = 0) ∨
    ((lineTokens ("mkpart primary ext4 1MiB 100%" : String).toList).getD 4 "" ≠ "100%" ∧
      parseBytes ((lineTokens ("mkpart primary ext4 1MiB 100%" : String).toList).getD 4 "") =
        some specRoot100.end_) :=
  end_sentinel_or_parsed_bytes ("mkpart primary ext4 1MiB 100%" : String).toList 1
    [["mkpart", "primary", "ext4", "1MiB", "100%"]] specRoot100 [] rfl

/-- C7: for every well-formed script, the spec count equals the number of
lines whose command tokens contain `mkpart` with `primary` or `logical`,
and the indices are the contiguous sequence 1..N in script order. -/
theorem parse_count_indices (script : String) (raw : List (List String)) (fss : List Mkfs)
    (h : parseScript script = .ok (raw, fss)) :
    fss.length = (splitOnChar '\n' script.toList).countP (fun l => isMkpartLine (lineTokens l)) ∧
    fss.map Mkfs.npart = List.range' 1 fss.length := by
  obtain ⟨-, hc, hn⟩ := parseLines_shape (scriptLines script) 1 raw fss h
  refine ⟨?_, hn⟩
  rw [hc]
  unfold scriptLines
  rw [List.countP_filter]
  apply List.countP_congr
  intro l _
  by_cases hl : l = []
  · subst hl; rfl
  · simp [hl]

/-- C7 witness: the claim evaluated on the three-line fixture script. -/
theorem parse_count_indices_witness :
    ([specBoot, specRootFull] : List Mkfs).length =
      (splitOnChar '\n' (script3 : String).toList).countP (fun l => isMkpartLine (lineTokens l)) ∧
    ([specBoot, specRootFull] : List Mkfs).map Mkfs.npart =
      List.range' 1 ([specBoot, specRootFull] : List Mkfs).length :=
  parse_count_indices script3
    [["mklabel", "msdos"],
     ["mkpart", "primary", "fat32", "1MiB", "256MiB"],
     ["mkpart", "primary", "ext4", "256MiB", "100%"]]
    [specBoot, specRootFull] rfl

/-- C8 counterexample: the one-line script consisting of a single space is
blank after trimming, yet the parser keeps an (empty) entry for it in the
raw command-line list instead of discarding the line. -/
theorem whitespace_line_kept :
    (" " : String).toList.all (·.isWhitespace) = true ∧
    ∃ raw fss, parseScript " " = .ok (raw, fss) ∧ raw ≠ [] :=
  ⟨by decide, [[]], [], rfl, by decide⟩

/-- C8 amended: only exactly-empty lines are discarded; every other line —
whitespace-only ones included, which yield an empty token list — has its
command-part token list appended to the raw list unconditionally. -/
theorem raw_lines_nonempty_lines (script : String) (raw : List (List String)) (fss : List Mkfs)
    (h : parseScript script = .ok (raw, fss)) :
    raw = ((splitOnChar '\n' script.toList).filter (· ≠ [])).map lineTokens :=
  (parseLines_shape (scriptLines script) 1 raw fss h).1

/-- C8 witness: the amended claim evaluated on a script with a normal line,
a whitespace-only line and a trailing empty line. -/
theorem raw_lines_nonempty_lines_witness :
    ([["mklabel", "msdos"], []] : List (List String)) =
      ((splitOnChar '\n' ("mklabel msdos\n \n" : String).toList).filter (· ≠ [])).map lineTokens :=
  raw_lines_nonempty_lines "mklabel msdos\n \n" [["mklabel", "msdos"], []] [] rfl

/-- C10: a line qualifies as partition-creating by membership — `mkpart`
anywhere among its command tokens together with `primary` or `logical`
anywhere — while filesystem kind, begin and end are taken positionally from
command tokens 2, 3 and 4, not relative to where `mkpart` occurs. -/
theorem mkpart_membership_positional (line : List Char) (n b e : Nat)
    (hmk : "mkpart" ∈ lineTokens line)
    (hpl : "primary" ∈ lineTokens line ∨ "logical" ∈ lineTokens line)
    (hlen : 5 ≤ (lineTokens line).length)
    (hb : parseBytes ((lineTokens line).getD 3 "") = some b)
    (he : parseEndToken ((lineTokens line).getD 4 "") = some e) :
    parseLines [line] n =
      .ok ([lineTokens line],
        [{ npart := n
           fs := (lineTokens line).getD 2 ""
           label := lookupLast (findKV (splitHash line).2) "label"
           reserved := lookupLast (findKV (splitHash line).2) "reserved"
           mount := lookupLast (findKV (splitHash line).2) "mount"
           begin := b
           end_ := e }]) := by
  refine parseLines_singleton line n b e ?_ (by omega) hb he
  simp only [isMkpartLine, List.contains, Bool.and_eq_true, Bool.or_eq_true]
  exact ⟨List.elem_eq_true_of_mem hmk,
    hpl.imp List.elem_eq_true_of_mem List.elem_eq_true_of_mem⟩

/-- C10 witness: on the line `foo bar ext4 1MiB 2MiB mkpart primary`, where
`mkpart` is the sixth token, the spec still takes the kind, begin and end
from tokens 2, 3, 4. -/
theorem mkpart_membership_positional_witness :
    parseLines [("foo bar ext4 1MiB 2MiB mkpart primary" : String).toList] 1 =
      .ok ([["foo", "bar", "ext4", "1MiB", "2MiB", "mkpart", "primary"]],
        [{ npart := 1, fs := "ext4", label := "", reserved := "", mount := "",
           begin := 1048576, end_ := 2097152 }]) :=
  mkpart_membership_positional ("foo bar ext4 1MiB 2MiB mkpart primary" : String).toList
    1 1048576 2097152 (by decide) (Or.inl (by decide)) (by decide) rfl rfl

/-- C9: the one-line script `mkpart primary ext4 1MiB 100% # label=root
mount=` on device `/dev/sda` in mkfs mode builds exactly three commands in
order: the ext4 creator with the flag pair `-L root` targeting `/dev/sda1`,
then `partprobe /dev/sda`, then `partx -vu /dev/sda`. -/
theorem mkfs_end_to_end (w : String → Option String) :
    mkfsDiskCmds w "/dev/sda" "mkpart primary ext4 1MiB 100% # label=root mount=" =
      .ok [[w "mkfs.ext4", some "-L", some "root", some "/dev/sda1"],
           [w "partprobe", some "/dev/sda"],
           [w "partx", some "-vu", some "/dev/sda"]] := rfl

/-- C2 counterexample: in the sequence `[["true"], ["nonexistent"]]` the
second command's program name does not resolve, yet the first command is
executed — resolution does not abort the sequence before it starts. -/
theorem executes_before_unresolved :
    envT.which "nonexistent" = none ∧
    runCommands envT [["true"], ["nonexistent"]] =
      ([["/bin/true"]], .notFound "nonexistent") ∧
    ([["/bin/true"]] : List (List String)) ≠ [] := ⟨rfl, rfl, by decide⟩

/-- C2 amended: program names are resolved one command at a time, at
execution time: when every command before some position resolves and exits
zero and the command at that position has an unresolvable name, all earlier
commands have already executed, and the run aborts there — that command and
everything after it never execute. -/
theorem aborts_at_unresolved (env : ExecEnv) (pre : List (List String))
    (cmd : List String) (post : List (List String))
    (hpre : ∀ c ∈ pre, (env.which (c.headD "")).isSome ∧
      env.run ((env.which (c.headD "")).getD "" :: c.tail) = 0)
    (hcmd : env.which (cmd.headD "") = none) :
    runCommands env (pre ++ cmd :: post) =
      (pre.map (fun c => (env.which (c.headD "")).getD "" :: c.tail),
       .notFound (cmd.headD "")) := by
  induction pre with
  | nil =>
    simp only [List.nil_append, runCommands, hcmd, List.map_nil]
  | cons c pre ih =>
    obtain ⟨hs, hz⟩ := hpre c (List.mem_cons_self c pre)
    cases hw : env.which (c.headD "") with
    | none => rw [hw] at hs; simp at hs
    | some exe =>
      rw [hw, Option.getD_some] at hz
      have step : runCommands env ((c :: pre) ++ cmd :: post) =
          ((exe :: c.tail) :: (runCommands env (pre ++ cmd :: post)).1,
           (runCommands env (pre ++ cmd :: post)).2) := by
        show runCommands env (c :: (pre ++ cmd :: post)) = _
        simp only [runCommands, hw]
        rw [if_pos hz]
      rw [step, ih (fun d hd => hpre d (List.mem_cons_of_mem c hd))]
      simp only [List.map_cons, hw, Option.getD_some]

/-- C2 witness: the amended claim on a three-command sequence whose middle
command has an unresolvable name — the first command executes, nothing
later does. -/
theorem aborts_at_unresolved_witness :
    runCommands envT [["true"], ["nope"], ["true"]] =
      ([["/bin/true"]], .notFound "nope") :=
  aborts_at_unresolved envT [["true"]] ["nope"] [["true"]]
    (by intro c hc; rw [List.mem_singleton] at hc; subst hc; exact ⟨rfl, rfl⟩) rfl

/-- C5: when the command at some position resolves but exits nonzero,
exactly the commands up to and including that one have executed — nothing
after it runs and no compensating command is issued — and the run ends in
failure (nonzero exit). -/
theorem aborts_at_failing_command (env : ExecEnv) (pre : List (List String))
    (cmd : List String) (post : List (List String)) (exe : String)
    (hpre : ∀ c ∈ pre, (env.which (c.headD "")).isSome ∧
      env.run ((env.which (c.headD "")).getD "" :: c.tail) = 0)
    (hw : env.which (cmd.headD "") = some exe)
    (hfail : env.run (exe :: cmd.tail) ≠ 0) :
    runCommands env (pre ++ cmd :: post) =
      (pre.map (fun c => (env.which (c.headD "")).getD "" :: c.tail) ++ [exe :: cmd.tail],
       .cmdFailed) := by
  induction pre with
  | nil =>
    simp only [List.nil_append, runCommands, hw, List.map_nil]
    rw [if_neg hfail]
  | cons c pre ih =>
    obtain ⟨hs, hz⟩ := hpre c (List.mem_cons_self c pre)
    cases hcw : env.which (c.headD "") with
    | none => rw [hcw] at hs; simp at hs
    | some cexe =>
      rw [hcw, Option.getD_some] at hz
      have step : runCommands env ((c :: pre) ++ cmd :: post) =
          ((cexe :: c.tail) :: (runCommands env (pre ++ cmd :: post)).1,
           (runCommands env (pre ++ cmd :: post)).2) := by
        show runCommands env (c :: (pre ++ cmd :: post)) = _
        simp only [runCommands, hcw]
        rw [if_pos hz]
      rw [step, ih (fun d hd => hpre d (List.mem_cons_of_mem c hd))]
      simp only [List.map_cons, List.cons_append, hcw, Option.getD_some]

/-- C5 witness: the claim on a three-command sequence whose middle command
fails — the first two argument vectors execute, the third never runs. -/
theorem aborts_at_failing_command_witness :
    runCommands envT [["true"], ["false", "x"], ["true"]] =
      ([["/bin/true"], ["/bin/false", "x"]], .cmdFailed) :=
  aborts_at_failing_command envT [["true"]] ["false", "x"] [["true"]] "/bin/false"
    (by intro c hc; rw [List.mem_singleton] at hc; subst hc; exact ⟨rfl, rfl⟩)
    rfl (by decide)

/-- An unsupported filesystem kind anywhere in the spec list makes the mkfs
command-list build fail. -/
theorem mkfsCmdList_error_of_unsupported (w : String → Option String) (device : String) :
    ∀ (fss : List Mkfs) (m : Mkfs), m ∈ fss → m.fs ≠ "fat32" → m.fs ≠ "ext4" →
      ∃ e, mkfsCmdList w device fss = .error e
  | [], m, hm, _, _ => absurd hm (List.not_mem_nil m)
  | m' :: rest, m, hm, h1, h2 => by
    cases hcm : mkfsCmd w device m' with
    | error e => exact ⟨e, by simp [mkfsCmdList, hcm]⟩
    | ok c =>
      rcases List.mem_cons.mp hm with rfl | hm'
      · exfalso
        unfold mkfsCmd at hcm
        rw [if_neg h1, if_neg h2] at hcm
        exact absurd hcm (by simp)
      · obtain ⟨e, he⟩ := mkfsCmdList_error_of_unsupported w device rest m hm' h1 h2
        exact ⟨e, by simp [mkfsCmdList, hcm, he]⟩

/-- C6: in mkfs mode, a spec whose filesystem kind is neither `fat32` nor
`ext4` makes the whole run fail during command building: no external
command at all is executed (the trace is empty) — no mkfs command for any
partition and no partprobe/partx re-enumeration — and the outcome is the
unsupported-filesystem error. -/
theorem mkfs_unsupported_aborts_run (env : ExecEnv) (device script : String)
    (raw : List (List String)) (fss : List Mkfs) (m : Mkfs)
    (hp : parseScript script = .ok (raw, fss))
    (hm : m ∈ fss) (h1 : m.fs ≠ "fat32") (h2 : m.fs ≠ "ext4") :
    (mkfsDisk env device script).1 = [] ∧
    ∃ e, (mkfsDisk env device script).2 = .error e := by
  obtain ⟨e, he⟩ := mkfsCmdList_error_of_unsupported env.which device fss m hm h1 h2
  have hcmds : mkfsDiskCmds env.which device script = .error e := by
    simp only [mkfsDiskCmds, hp, he]
  rw [show mkfsDisk env device script = ([], .error e) from by simp only [mkfsDisk, hcmds]]
  exact ⟨rfl, e, rfl⟩

/-- C6 witness: the claim on the script `mkpart primary btrfs 1MiB 100%`,
whose only spec has the unsupported kind `btrfs`. -/
theorem mkfs_unsupported_aborts_run_witness :
    (mkfsDisk envT "/dev/sda" "mkpart primary btrfs 1MiB 100%").1 = [] ∧
    ∃ e, (mkfsDisk envT "/dev/sda" "mkpart primary btrfs 1MiB 100%").2 = .error e :=
  mkfs_unsupported_aborts_run envT "/dev/sda" "mkpart primary btrfs 1MiB 100%"
    [["mkpart", "primary", "btrfs", "1MiB", "100%"]]
    [{ npart := 1, fs := "btrfs", label := "", reserved := "", mount := "",
       begin := 1048576, end_ := 0 }]
    { npart := 1, fs := "btrfs", label := "", reserved := "", mount := "",
      begin := 1048576, end_ := 0 }
    rfl (List.mem_singleton.mpr rfl) (by decide) (by decide)

/-- C3 counterexample: `specA` and `specB` have equal mount depth and stand
in script order `[specA, specB]`, but the descending (unmount) ordering
returns them reversed — they do not appear in original script order there. -/
theorem descending_tie_reversed :
    mountDepth specA = mountDepth specB ∧
    mountOrdered [specA, specB] false = [specB, specA] ∧
    ¬ List.Sublist [specA, specB] (mountOrdered [specA, specB] false) := by
  have hsorted :
      List.mergeSort [specA, specB] (fun x y => decide (mountDepth x ≤ mountDepth y)) =
        [specA, specB] :=
    List.mergeSort_of_sorted (by simp [List.pairwise_cons]; decide)
  have h2 : mountOrdered [specA, specB] false = [specB, specA] := by
    show (List.mergeSort [specA, specB]
      (fun x y => decide (mountDepth x ≤ mountDepth y))).reverse = [specB, specA]
    rw [hsorted]
    rfl
  refine ⟨rfl, h2, ?_⟩
  rw [h2]
  decide

/-- C3 amended: equal-depth partitions keep their original script order in
the ascending (mount) ordering; the descending (unmount) ordering is the
exact reverse of the ascending one, so equal-depth partitions appear there
in reversed script order. -/
theorem mount_order_ties (fss : List Mkfs) (a b : Mkfs)
    (hd : mountDepth a = mountDepth b)
    (hsub : List.Sublist [a, b] fss) :
    List.Sublist [a, b] (mountOrdered fss true) ∧
    List.Sublist [b, a] (mountOrdered fss false) ∧
    mountOrdered fss false = (mountOrdered fss true).reverse := by
  have hasc : List.Sublist [a, b] (List.mergeSort fss
      (fun x y => decide (mountDepth x ≤ mountDepth y))) :=
    List.pair_sublist_mergeSort
      (fun x y z hxy hyz => by
        simp only [decide_eq_true_eq] at hxy hyz ⊢
        omega)
      (fun x y => by
        simp only [Bool.or_eq_true, decide_eq_true_eq]
        omega)
      (by simp [hd])
      hsub
  refine ⟨hasc, ?_, rfl⟩
  show List.Sublist [b, a] (List.mergeSort fss
    (fun x y => decide (mountDepth x ≤ mountDepth y))).reverse
  simpa using hasc.reverse

/-- C3 witness: the amended claim on the two equal-depth fixture specs. -/
theorem mount_order_ties_witness :
    List.Sublist [specA, specB] (mountOrdered [specA, specB] true) ∧
    List.Sublist [specB, specA] (mountOrdered [specA, specB] false) ∧
    mountOrdered [specA, specB] false = (mountOrdered [specA, specB] true).reverse :=
  mount_order_ties [specA, specB] specA specB rfl (by decide)

end Disk
